import Mathlib

/-!
# generics/main.go: summation over Go maps

A shallow embedding of `SumIntsOrFloats`, `SumNumbers`, `SumInts` and
`SumFloats` from `src/generics/main.go`, and theorems about the int64
instantiation.

* Go's `int64` is an integer in `[-2^63, 2^63 - 1]`; `+=` wraps modulo `2^64`.
* A Go map is given by its entries in the order `range` visits them, with
  pairwise distinct keys.  Two such values with the same entries in a different
  order are the same map under two iteration orders.
-/

namespace Generics

/-! ## Data model -/

/-- Smallest int64 value, `-2^63`. -/
def minInt64 : Int := -9223372036854775808

/-- Largest int64 value, `2^63 - 1`. -/
def maxInt64 : Int := 9223372036854775807

/-- Two's-complement reduction of a mathematical integer to the int64 range:
the unique representative modulo `2^64` in `[-2^63, 2^63 - 1]`. -/
def wrap64 (x : Int) : Int :=
  (x + 9223372036854775808) % 18446744073709551616 - 9223372036854775808

/-- Go's `int64`: an integer lying in the int64 range. -/
structure GoInt64 where
  val : Int
  lo : minInt64 ≤ val
  hi : val ≤ maxInt64

namespace GoInt64

/-- Conversion of a mathematical integer to int64, wrapping modulo `2^64`. -/
def ofInt (x : Int) : GoInt64 :=
  ⟨wrap64 x, by unfold wrap64 minInt64; omega, by unfold wrap64 maxInt64; omega⟩

/-- The zero value of int64 (what `var s int64` holds). -/
def zero : GoInt64 := ⟨0, by decide, by decide⟩

/-- Go's `+` on int64: the exact sum wrapped modulo `2^64`. -/
def add (a b : GoInt64) : GoInt64 := ofInt (a.val + b.val)

end GoInt64

/-- The constraint `Number` (`int64 | float64`) of main.go: a value type the
generic functions may be instantiated at, with its zero value (`var s V`) and
its addition (`s += v`). -/
class Number (V : Type) where
  zero : V
  add : V → V → V

instance instNumberGoInt64 : Number GoInt64 where
  zero := GoInt64.zero
  add := GoInt64.add

instance instNumberFloat : Number Float where
  zero := 0.0
  add := fun a b => a + b

/-- A Go `map[K]V` as a `range` loop sees it: the entries in the order they
are visited; keys are pairwise distinct.  The nil map and the empty map both
have no entries. -/
structure GoMap (K V : Type) where
  entries : List (K × V)
  nodup : (entries.map Prod.fst).Nodup

namespace GoMap

/-- The empty map. -/
def empty (K V : Type) : GoMap K V := ⟨[], List.nodup_nil⟩

/-- The single-entry map `{k: v}`. -/
def single {K V : Type} (k : K) (v : V) : GoMap K V :=
  ⟨[(k, v)], List.nodup_singleton k⟩

/-- Number of entries, `len(m)`. -/
def len {K V : Type} (m : GoMap K V) : Nat := m.entries.length

/-- The values of the map in visiting order. -/
def values {K V : Type} (m : GoMap K V) : List V := m.entries.map Prod.snd

/-- The arithmetic sum of all values of an int64 map, taken in the
mathematical integers (no wrapping). -/
def exactSum {K : Type} (m : GoMap K GoInt64) : Int :=
  (m.entries.map (fun e => e.2.val)).sum

end GoMap

/-! ## The functions of main.go -/

/-- Generic `SumIntsOrFloats[K comparable, V int64 | float64]`:
`var s V; for _, v := range m { s += v }; return s`. -/
def SumIntsOrFloats {K V : Type} [DecidableEq K] [Number V] (m : GoMap K V) : V :=
  m.entries.foldl (fun s e => Number.add s e.2) Number.zero

/-- Generic `SumNumbers[K comparable, V Number]`:
`var s V; for _, v := range m { s += v }; return s`. -/
def SumNumbers {K V : Type} [DecidableEq K] [Number V] (m : GoMap K V) : V :=
  m.entries.foldl (fun s e => Number.add s e.2) Number.zero

/-- Non-generic `SumInts(m map[string]int64) int64`. -/
def SumInts (m : GoMap String GoInt64) : GoInt64 :=
  m.entries.foldl (fun s e => GoInt64.add s e.2) GoInt64.zero

/-- Non-generic `SumFloats(m map[string]float64) float64`. -/
def SumFloats (m : GoMap String Float) : Float :=
  m.entries.foldl (fun s e => s + e.2) 0.0

/-! ## The range loop, one iteration at a time -/

/-- State of the loop `for _, v := range m { s += v }`: the entries still to
be visited, the accumulator `s`, and how often the body has run. -/
structure LoopState (K V : Type) where
  rest : List (K × V)
  s : V
  iters : Nat

/-- Loop entry: nothing visited yet, `s` is the zero value. -/
def LoopState.init {K V : Type} [Number V] (m : GoMap K V) : LoopState K V :=
  ⟨m.entries, Number.zero, 0⟩

/-- Runs the loop for at most `fuel` steps.  A step either executes the body
for the next entry or, when no entry is left, returns `s` together with the
number of body executions.  `none` means the fuel ran out first. -/
def runLoop {K V : Type} [Number V] : Nat → LoopState K V → Option (V × Nat)
  | 0, _ => none
  | fuel + 1, st =>
    match st.rest with
    | [] => some (st.s, st.iters)
    | e :: rest => runLoop fuel ⟨rest, Number.add st.s e.2, st.iters + 1⟩

/-! ## Concrete maps -/

/-- The int64 `1`. -/
def one64 : GoInt64 := ⟨1, by decide, by decide⟩

/-- The int64 `2^63 - 1`. -/
def max64 : GoInt64 := ⟨maxInt64, by decide, by decide⟩

/-- The int64 `-2^63`. -/
def min64 : GoInt64 := ⟨minInt64, by decide, by decide⟩

/-- The map `ints` built in `main`, visited "first" then "second". -/
def mainInts : GoMap String GoInt64 :=
  ⟨[("first", ⟨34, by decide, by decide⟩), ("second", ⟨12, by decide, by decide⟩)],
    by decide⟩

/-- The map `ints` built in `main`, visited "second" then "first". -/
def mainIntsRev : GoMap String GoInt64 :=
  ⟨[("second", ⟨12, by decide, by decide⟩), ("first", ⟨34, by decide, by decide⟩)],
    by decide⟩

/-- The map `{"a": 2^63 - 1, "b": 1}`, visited "a" then "b". -/
def overflowAB : GoMap String GoInt64 :=
  ⟨[("a", max64), ("b", one64)], by decide⟩

/-- The map `{"a": 2^63 - 1, "b": 1}`, visited "b" then "a". -/
def overflowBA : GoMap String GoInt64 :=
  ⟨[("b", one64), ("a", max64)], by decide⟩

/-- The map `{7: 1, 3: 2^63 - 1}` with integer keys, visited 7 then 3: the
values of `overflowAB` under other keys of another type. -/
def overflowNat : GoMap Nat GoInt64 :=
  ⟨[(7, one64), (3, max64)], by decide⟩

/-- The int64 `-1`. -/
def negOne64 : GoInt64 := ⟨-1, by decide, by decide⟩

/-- The map `{"a": 2^63 - 1, "b": 1, "c": -1}`, visited "a", "b", "c": the
entries of `overflowAB` followed by "c". -/
def overflowABC : GoMap String GoInt64 :=
  ⟨[("a", max64), ("b", one64), ("c", negOne64)], by decide⟩

/-! ## Arithmetic of the int64 wrap -/

theorem wrap64_lo (x : Int) : minInt64 ≤ wrap64 x := by
  unfold wrap64 minInt64; omega

theorem wrap64_hi (x : Int) : wrap64 x ≤ maxInt64 := by
  unfold wrap64 maxInt64; omega

theorem wrap64_of_range {x : Int} (hlo : minInt64 ≤ x) (hhi : x ≤ maxInt64) :
    wrap64 x = x := by
  unfold minInt64 at hlo; unfold maxInt64 at hhi; unfold wrap64; omega

theorem wrap64_val (a : GoInt64) : wrap64 a.val = a.val :=
  wrap64_of_range a.lo a.hi

theorem wrap64_add_wrap_left (a b : Int) : wrap64 (wrap64 a + b) = wrap64 (a + b) := by
  unfold wrap64; omega

theorem wrap64_add_wrap (a b : Int) :
    wrap64 (wrap64 a + wrap64 b) = wrap64 (a + b) := by
  unfold wrap64; omega

theorem wrap64_modEq (x : Int) : wrap64 x ≡ x [ZMOD 18446744073709551616] := by
  unfold wrap64 Int.ModEq; omega

theorem GoInt64.eq_of_val {a b : GoInt64} (h : a.val = b.val) : a = b := by
  cases a; cases b; cases h; rfl

theorem GoInt64.add_val (a b : GoInt64) : (GoInt64.add a b).val = wrap64 (a.val + b.val) :=
  rfl

/-! ## The accumulation loop -/

/-- Running the loop body over `l` from accumulator `s` gives the wrap of the
exact total of `s` and the values of `l`. -/
theorem foldl_add_val {K : Type} (l : List (K × GoInt64)) (s : GoInt64) :
    (l.foldl (fun s e => GoInt64.add s e.2) s).val
      = wrap64 (s.val + (l.map (fun e => e.2.val)).sum) := by
  induction l generalizing s with
  | nil => simp [wrap64_val]
  | cons e rest ih =>
    rw [List.foldl_cons, ih, GoInt64.add_val, wrap64_add_wrap_left, List.map_cons,
      List.sum_cons, add_assoc]

theorem SumNumbers_val {K : Type} [DecidableEq K] (m : GoMap K GoInt64) :
    (SumNumbers m).val = wrap64 m.exactSum := by
  have h := foldl_add_val m.entries GoInt64.zero
  have hz : GoInt64.zero.val = 0 := rfl
  rw [hz, zero_add] at h
  exact h

theorem SumIntsOrFloats_eq_SumNumbers {K V : Type} [DecidableEq K] [Number V]
    (m : GoMap K V) : SumIntsOrFloats m = SumNumbers m := rfl

theorem SumInts_eq_SumNumbers (m : GoMap String GoInt64) : SumInts m = SumNumbers m := rfl

theorem exactSum_perm {K : Type} {m1 m2 : GoMap K GoInt64}
    (h : m1.entries.Perm m2.entries) : m1.exactSum = m2.exactSum :=
  (h.map _).sum_eq

theorem SumNumbers_perm {K : Type} [DecidableEq K] {m1 m2 : GoMap K GoInt64}
    (h : m1.entries.Perm m2.entries) : SumNumbers m1 = SumNumbers m2 :=
  GoInt64.eq_of_val (by rw [SumNumbers_val, SumNumbers_val, exactSum_perm h])

theorem SumIntsOrFloats_val {K : Type} [DecidableEq K] (m : GoMap K GoInt64) :
    (SumIntsOrFloats m).val = wrap64 m.exactSum :=
  SumNumbers_val m

theorem SumInts_val (m : GoMap String GoInt64) : (SumInts m).val = wrap64 m.exactSum :=
  SumNumbers_val m

theorem exactSum_eq_values {K : Type} (m : GoMap K GoInt64) :
    m.exactSum = (m.values.map GoInt64.val).sum := by
  simp [GoMap.exactSum, GoMap.values, List.map_map, Function.comp_def]

theorem exactSum_values_perm {K1 K2 : Type} {m1 : GoMap K1 GoInt64} {m2 : GoMap K2 GoInt64}
    (h : m1.values.Perm m2.values) : m1.exactSum = m2.exactSum := by
  rw [exactSum_eq_values, exactSum_eq_values]
  exact (h.map _).sum_eq

theorem exactSum_split {K : Type} {m m1 m2 : GoMap K GoInt64}
    (h : m.entries.Perm (m1.entries ++ m2.entries)) :
    m.exactSum = m1.exactSum + m2.exactSum := by
  unfold GoMap.exactSum
  rw [(h.map _).sum_eq, List.map_append, List.sum_append]

theorem runLoop_foldl {K V : Type} [Number V] (l : List (K × V)) (s : V) (n : Nat) :
    runLoop (l.length + 1) ⟨l, s, n⟩
      = some (l.foldl (fun s e => Number.add s e.2) s, n + l.length) := by
  induction l generalizing s n with
  | nil => rfl
  | cons e rest ih =>
    rw [List.length_cons, runLoop]
    simp only [List.foldl_cons]
    rw [ih]
    simp [Nat.add_assoc, Nat.add_comm 1]

/-! ## The claims -/

/-- C1, as stated, fails: on the map whose two values are `2^63 - 1` and `1`
each of the three functions returns a value different from the arithmetic sum
`2^63` of the values. -/
theorem sum_ne_exactSum_on_overflow :
    (SumNumbers overflowAB).val ≠ overflowAB.exactSum
      ∧ (SumIntsOrFloats overflowAB).val ≠ overflowAB.exactSum
      ∧ (SumInts overflowAB).val ≠ overflowAB.exactSum := by
  decide

/-- C1, amended: for every map from string keys to int64 values, in every
iteration order, each of `SumNumbers`, `SumIntsOrFloats` and `SumInts` returns
the arithmetic sum of the values wrapped modulo `2^64` into the int64 range,
and returns the arithmetic sum itself whenever that sum lies in
`[-2^63, 2^63 - 1]`. -/
theorem sum_eq_wrapped_exactSum (m : GoMap String GoInt64) :
    ((SumNumbers m).val = wrap64 m.exactSum
      ∧ (SumIntsOrFloats m).val = wrap64 m.exactSum
      ∧ (SumInts m).val = wrap64 m.exactSum)
    ∧ (minInt64 ≤ m.exactSum → m.exactSum ≤ maxInt64 →
        (SumNumbers m).val = m.exactSum
          ∧ (SumIntsOrFloats m).val = m.exactSum
          ∧ (SumInts m).val = m.exactSum) := by
  refine ⟨⟨SumNumbers_val m, SumIntsOrFloats_val m, SumInts_val m⟩, fun hlo hhi => ?_⟩
  rw [SumNumbers_val, SumIntsOrFloats_val, SumInts_val, wrap64_of_range hlo hhi]
  exact ⟨rfl, rfl, rfl⟩

theorem sum_eq_wrapped_exactSum_witness :
    (minInt64 ≤ mainInts.exactSum ∧ mainInts.exactSum ≤ maxInt64)
      ∧ (SumNumbers mainInts).val = mainInts.exactSum
      ∧ (SumIntsOrFloats mainInts).val = mainInts.exactSum
      ∧ (SumInts mainInts).val = mainInts.exactSum :=
  ⟨⟨by decide, by decide⟩, (sum_eq_wrapped_exactSum mainInts).2 (by decide) (by decide)⟩

/-- C2: two iteration orders of the same int64 map (two permutations of the
same entries) give the same result in `SumNumbers`, in `SumIntsOrFloats` and,
for string keys, in `SumInts`, also when the running total overflows. -/
theorem sum_order_independent {K : Type} [DecidableEq K] (m1 m2 : GoMap K GoInt64)
    (s1 s2 : GoMap String GoInt64)
    (h : m1.entries.Perm m2.entries) (hs : s1.entries.Perm s2.entries) :
    SumNumbers m1 = SumNumbers m2
      ∧ SumIntsOrFloats m1 = SumIntsOrFloats m2
      ∧ SumInts s1 = SumInts s2 :=
  ⟨SumNumbers_perm h, SumNumbers_perm h, SumNumbers_perm hs⟩

theorem sum_order_independent_witness :
    overflowAB.entries.Perm overflowBA.entries
      ∧ SumNumbers overflowAB = SumNumbers overflowBA
      ∧ SumIntsOrFloats overflowAB = SumIntsOrFloats overflowBA
      ∧ SumInts overflowAB = SumInts overflowBA :=
  ⟨List.Perm.swap _ _ _,
    sum_order_independent overflowAB overflowBA overflowAB overflowBA
      (List.Perm.swap _ _ _) (List.Perm.swap _ _ _)⟩

/-- C3: on the empty map the generic functions return the zero value of the
value type, whatever that type is; the zero value is `0` for int64 and `0.0`
for float64, and `SumInts` and `SumFloats` return `0` and `0.0`.  The loop
returns its initial accumulator after zero executions of its body. -/
theorem sum_empty_is_zero {K V : Type} [DecidableEq K] [Number V] :
    SumIntsOrFloats (GoMap.empty K V) = Number.zero
      ∧ SumNumbers (GoMap.empty K V) = Number.zero
      ∧ (SumIntsOrFloats (GoMap.empty K GoInt64)).val = 0
      ∧ (SumNumbers (GoMap.empty K GoInt64)).val = 0
      ∧ SumIntsOrFloats (GoMap.empty K Float) = 0.0
      ∧ SumNumbers (GoMap.empty K Float) = 0.0
      ∧ (SumInts (GoMap.empty String GoInt64)).val = 0
      ∧ SumFloats (GoMap.empty String Float) = 0.0
      ∧ runLoop 1 (LoopState.init (GoMap.empty K V)) = some (Number.zero, 0) :=
  ⟨rfl, rfl, rfl, rfl, rfl, rfl, rfl, rfl, rfl⟩

/-- C4: the sum of a single-entry map `{k: v}` is exactly `v`, for every key
and every int64 value `v`, the minimum and the maximum included. -/
theorem sum_single_is_value {K : Type} [DecidableEq K] (k : K) (ks : String) (v : GoInt64) :
    (SumNumbers (GoMap.single k v) = v
      ∧ SumIntsOrFloats (GoMap.single k v) = v
      ∧ SumInts (GoMap.single ks v) = v)
    ∧ (SumNumbers (GoMap.single k min64)).val = -9223372036854775808
    ∧ (SumNumbers (GoMap.single k max64)).val = 9223372036854775807 := by
  have hv : ∀ (J : Type) [DecidableEq J] (j : J) (w : GoInt64),
      SumNumbers (GoMap.single j w) = w := by
    intro J _ j w
    apply GoInt64.eq_of_val
    rw [SumNumbers_val]
    simp [GoMap.exactSum, GoMap.single, wrap64_val]
  refine ⟨⟨hv K k v, hv K k v, hv String ks v⟩, ?_, ?_⟩
  · rw [hv K k min64]; rfl
  · rw [hv K k max64]; rfl

/-- C5: the three int64 summations agree.  On a map with string keys,
`SumInts`, `SumIntsOrFloats` and `SumNumbers` return the same value, also when
each call visits the entries in an order of its own; on a map with keys of
any comparable type, `SumIntsOrFloats` and `SumNumbers` do. -/
theorem sum_functions_agree {K : Type} [DecidableEq K]
    (a b c : GoMap String GoInt64) (x y : GoMap K GoInt64)
    (hab : a.entries.Perm b.entries) (hbc : b.entries.Perm c.entries)
    (hxy : x.entries.Perm y.entries) :
    SumInts a = SumIntsOrFloats b
      ∧ SumIntsOrFloats b = SumNumbers c
      ∧ SumIntsOrFloats x = SumNumbers y :=
  ⟨SumNumbers_perm hab, SumNumbers_perm hbc, SumNumbers_perm hxy⟩

theorem sum_functions_agree_witness :
    (mainInts.entries.Perm mainIntsRev.entries
      ∧ mainIntsRev.entries.Perm mainInts.entries)
      ∧ SumInts mainInts = SumIntsOrFloats mainIntsRev
      ∧ SumIntsOrFloats mainIntsRev = SumNumbers mainInts
      ∧ SumIntsOrFloats mainInts = SumNumbers mainIntsRev :=
  ⟨⟨List.Perm.swap _ _ _, List.Perm.swap _ _ _⟩,
    sum_functions_agree mainInts mainIntsRev mainInts mainInts mainIntsRev
      (List.Perm.swap _ _ _) (List.Perm.swap _ _ _) (List.Perm.swap _ _ _)⟩

/-- C6: the int64 sum depends only on the multiset of values.  Two maps, with
keys of any two types, whose values are the same up to order have the same
`SumNumbers` and the same `SumIntsOrFloats`. -/
theorem sum_invariant_under_relabelling {K1 K2 : Type} [DecidableEq K1] [DecidableEq K2]
    (m1 : GoMap K1 GoInt64) (m2 : GoMap K2 GoInt64) (h : m1.values.Perm m2.values) :
    SumNumbers m1 = SumNumbers m2 ∧ SumIntsOrFloats m1 = SumIntsOrFloats m2 := by
  have hv : SumNumbers m1 = SumNumbers m2 :=
    GoInt64.eq_of_val (by rw [SumNumbers_val, SumNumbers_val, exactSum_values_perm h])
  exact ⟨hv, hv⟩

theorem sum_invariant_under_relabelling_witness :
    overflowAB.values.Perm overflowNat.values
      ∧ SumNumbers overflowAB = SumNumbers overflowNat
      ∧ SumIntsOrFloats overflowAB = SumIntsOrFloats overflowNat :=
  ⟨List.Perm.swap _ _ _,
    sum_invariant_under_relabelling overflowAB overflowNat (List.Perm.swap _ _ _)⟩

/-- C7: on the map `ints` of `main`, with entries "first": 34 and
"second": 12, in whichever order the two entries are visited, `SumInts`,
`SumIntsOrFloats` (type arguments explicit or inferred) and `SumNumbers`
return 46. -/
theorem main_ints_sum_46 (m : GoMap String GoInt64)
    (h : m.entries.Perm mainInts.entries) :
    (SumInts m).val = 46
      ∧ (@SumIntsOrFloats String GoInt64 _ _ m).val = 46
      ∧ (SumIntsOrFloats m).val = 46
      ∧ (SumNumbers m).val = 46 := by
  have hv : (SumNumbers m).val = 46 := by
    rw [SumNumbers_perm h]; decide
  exact ⟨hv, hv, hv, hv⟩

theorem main_ints_sum_46_witness :
    mainIntsRev.entries.Perm mainInts.entries
      ∧ (SumInts mainIntsRev).val = 46
      ∧ (@SumIntsOrFloats String GoInt64 _ _ mainIntsRev).val = 46
      ∧ (SumIntsOrFloats mainIntsRev).val = 46
      ∧ (SumNumbers mainIntsRev).val = 46 :=
  ⟨List.Perm.swap _ _ _, main_ints_sum_46 mainIntsRev (List.Perm.swap _ _ _)⟩

/-- C8: the int64 sum is independent of partitioning.  When the entries of
`m` are those of `m1` together with those of `m2` (so the key sets of `m1`
and `m2` are disjoint and their union is that of `m`), `SumNumbers m` is the
int64 sum, wrapping modulo `2^64`, of `SumNumbers m1` and `SumNumbers m2`;
likewise for `SumIntsOrFloats`. -/
theorem sum_split {K : Type} [DecidableEq K] (m m1 m2 : GoMap K GoInt64)
    (h : m.entries.Perm (m1.entries ++ m2.entries)) :
    SumNumbers m = GoInt64.add (SumNumbers m1) (SumNumbers m2)
      ∧ SumIntsOrFloats m = GoInt64.add (SumIntsOrFloats m1) (SumIntsOrFloats m2) := by
  have hv : SumNumbers m = GoInt64.add (SumNumbers m1) (SumNumbers m2) := by
    apply GoInt64.eq_of_val
    rw [GoInt64.add_val, SumNumbers_val, SumNumbers_val, SumNumbers_val, wrap64_add_wrap,
      exactSum_split h]
  exact ⟨hv, hv⟩

theorem sum_split_witness :
    overflowBA.entries.Perm
        ((GoMap.single "a" max64).entries ++ (GoMap.single "b" one64).entries)
      ∧ SumNumbers overflowBA
          = GoInt64.add (SumNumbers (GoMap.single "a" max64))
              (SumNumbers (GoMap.single "b" one64))
      ∧ SumIntsOrFloats overflowBA
          = GoInt64.add (SumIntsOrFloats (GoMap.single "a" max64))
              (SumIntsOrFloats (GoMap.single "b" one64)) :=
  ⟨List.Perm.swap _ _ _,
    sum_split overflowBA (GoMap.single "a" max64) (GoMap.single "b" one64)
      (List.Perm.swap _ _ _)⟩

/-- C9: the summations are total and cannot fail.  Run step by step, the loop
of each function over a map with `len m` entries comes to its `return` within
`len m + 1` steps, having executed its body exactly `len m` times, and the
value returned is the value of the function, an int64. -/
theorem sum_terminates {K : Type} [DecidableEq K] (m : GoMap K GoInt64)
    (ms : GoMap String GoInt64) :
    runLoop (m.len + 1) (LoopState.init m) = some (SumNumbers m, m.len)
      ∧ runLoop (m.len + 1) (LoopState.init m) = some (SumIntsOrFloats m, m.len)
      ∧ runLoop (ms.len + 1) (LoopState.init ms) = some (SumInts ms, ms.len)
      ∧ minInt64 ≤ (SumNumbers m).val ∧ (SumNumbers m).val ≤ maxInt64 := by
  have hr : ∀ (J : Type) [DecidableEq J] (x : GoMap J GoInt64),
      runLoop (x.len + 1) (LoopState.init x) = some (SumNumbers x, x.len) := by
    intro J _ x
    have h := runLoop_foldl x.entries (Number.zero : GoInt64) 0
    rw [Nat.zero_add] at h
    exact h
  exact ⟨hr K m, hr K m, hr String ms, (SumNumbers m).lo, (SumNumbers m).hi⟩

/-- C10: the value returned is the two's-complement wrap of the exact sum.
For every int64 map in every iteration order the result of `SumNumbers`,
`SumIntsOrFloats` and `SumInts` lies in `[-2^63, 2^63 - 1]` and is congruent
modulo `2^64` to the arithmetic sum of the values; on the map with values
`2^63 - 1` and `1`, whose arithmetic sum is `2^63`, the result is `-2^63` in
both orders. -/
theorem sum_is_wrap_of_exactSum {K : Type} [DecidableEq K] (m : GoMap K GoInt64)
    (ms : GoMap String GoInt64) :
    (-9223372036854775808 ≤ (SumNumbers m).val ∧ (SumNumbers m).val ≤ 9223372036854775807
      ∧ (SumNumbers m).val ≡ m.exactSum [ZMOD 18446744073709551616])
    ∧ (-9223372036854775808 ≤ (SumIntsOrFloats m).val
      ∧ (SumIntsOrFloats m).val ≤ 9223372036854775807
      ∧ (SumIntsOrFloats m).val ≡ m.exactSum [ZMOD 18446744073709551616])
    ∧ (-9223372036854775808 ≤ (SumInts ms).val ∧ (SumInts ms).val ≤ 9223372036854775807
      ∧ (SumInts ms).val ≡ ms.exactSum [ZMOD 18446744073709551616])
    ∧ overflowAB.exactSum = 9223372036854775808
    ∧ (SumNumbers overflowAB).val = -9223372036854775808
    ∧ (SumNumbers overflowBA).val = -9223372036854775808
    ∧ (SumIntsOrFloats overflowAB).val = -9223372036854775808
    ∧ (SumInts overflowBA).val = -9223372036854775808 := by
  have hw : ∀ (J : Type) [DecidableEq J] (x : GoMap J GoInt64),
      -9223372036854775808 ≤ (SumNumbers x).val ∧ (SumNumbers x).val ≤ 9223372036854775807
        ∧ (SumNumbers x).val ≡ x.exactSum [ZMOD 18446744073709551616] := by
    intro J _ x
    refine ⟨(SumNumbers x).lo, (SumNumbers x).hi, ?_⟩
    rw [SumNumbers_val]
    exact wrap64_modEq _
  exact ⟨hw K m, hw K m, hw String ms, by decide, by decide, by decide, by decide, by decide⟩

/-- C11: when the arithmetic sum of the values of an int64 map lies in
`[-2^63, 2^63 - 1]`, `SumNumbers`, `SumIntsOrFloats` and `SumInts` return
exactly that sum in every iteration order, also when the accumulator overflows
on the way.  On the map with values `2^63 - 1`, `1` and `-1` every visiting
order gives `2^63 - 1`, although in the order "a", "b", "c" the accumulator
after two entries has wrapped to `-2^63`. -/
theorem sum_exact_when_total_in_range {K : Type} [DecidableEq K] (m : GoMap K GoInt64)
    (ms : GoMap String GoInt64)
    (hlo : -9223372036854775808 ≤ m.exactSum) (hhi : m.exactSum ≤ 9223372036854775807)
    (hslo : -9223372036854775808 ≤ ms.exactSum) (hshi : ms.exactSum ≤ 9223372036854775807) :
    ((SumNumbers m).val = m.exactSum
      ∧ (SumIntsOrFloats m).val = m.exactSum
      ∧ (SumInts ms).val = ms.exactSum)
    ∧ (∀ p : GoMap String GoInt64, p.entries.Perm overflowABC.entries →
        (SumNumbers p).val = 9223372036854775807
          ∧ (SumIntsOrFloats p).val = 9223372036854775807
          ∧ (SumInts p).val = 9223372036854775807)
    ∧ (overflowABC.entries = overflowAB.entries ++ [("c", negOne64)]
        ∧ overflowAB.exactSum = 9223372036854775808
        ∧ (SumNumbers overflowAB).val = -9223372036854775808
        ∧ (SumNumbers overflowABC).val = 9223372036854775807) := by
  have he : ∀ (J : Type) [DecidableEq J] (x : GoMap J GoInt64),
      -9223372036854775808 ≤ x.exactSum → x.exactSum ≤ 9223372036854775807 →
        (SumNumbers x).val = x.exactSum := by
    intro J _ x h1 h2
    rw [SumNumbers_val]
    exact wrap64_of_range h1 h2
  refine ⟨⟨he K m hlo hhi, he K m hlo hhi, he String ms hslo hshi⟩, ?_, rfl, ?_, ?_, ?_⟩
  · intro p hp
    have hs : p.exactSum = 9223372036854775807 := by
      rw [exactSum_perm hp]; decide
    have hv : (SumNumbers p).val = 9223372036854775807 := by
      rw [he String p (by rw [hs]; decide) (le_of_eq hs), hs]
    exact ⟨hv, hv, hv⟩
  · decide
  · decide
  · decide

theorem sum_exact_when_total_in_range_witness :
    (-9223372036854775808 ≤ overflowABC.exactSum
      ∧ overflowABC.exactSum ≤ 9223372036854775807)
      ∧ (SumNumbers overflowABC).val = overflowABC.exactSum
      ∧ (SumIntsOrFloats overflowABC).val = overflowABC.exactSum
      ∧ (SumInts overflowABC).val = overflowABC.exactSum :=
  ⟨⟨by decide, by decide⟩,
    (sum_exact_when_total_in_range overflowABC overflowABC
      (by decide) (by decide) (by decide) (by decide)).1⟩

end Generics
